import Mathlib

/-!
Verification of the lagged-feature tabularization and autoregressive
prediction engine of `darts/models/forecasting/regression_model.py`.

The development shallowly embeds, over `ℚ`-valued series with integer time
labels:
* the lag-specification logic of `RegressionModel.__init__`,
* the lagged-matrix builder `RegressionModel._create_lagged_data`
  (pandas `shift` / outer-join `concat` / `dropna` semantics),
* the autoregressive prediction loop and covariate-coverage check of
  `RegressionModel.predict`,
* the probabilistic strategies of `_LikelihoodMixin`
  (`_predict_quantiles`, `_predict_normal`, `_predict_poisson`,
  `_quantile_sampling`).

Missing values (pandas `NaN`) are `Option.none`; python exceptions raised by
`raise_if` / `raise_if_not` are `Except.error` carrying the formatted message.
-/

namespace Darts

/-! ## Lag specification (`RegressionModel.__init__`, lines 164-222) -/

/-- `__init__` lines 169-176 and 184-191: an explicit lag list for the target
or past-covariate group.  Every element must be a strictly negative integer,
otherwise a configuration error carrying `msg` is raised; a non-empty list
is stored sorted ascending (python `sorted`); an empty list leaves the group
absent. -/
def lagsFromList (msg : String) (lags : List ℤ) : Except String (Option (List ℤ)) :=
  if lags.all (fun lag => decide (lag < 0)) then
    if lags.isEmpty then Except.ok none
    else Except.ok (some (lags.insertionSort (· ≤ ·)))
  else Except.error msg

/-- The wrong-sign message for an explicit target-lag list
(`__init__`, line 173). -/
def targetLagsListMsg (lags : List ℤ) : String :=
  "Every element of `lags` must be a strictly negative integer. Given: " ++
  toString lags ++ "."

/-- The wrong-sign message for an explicit past-covariate lag list
(`__init__`, line 188). -/
def pastLagsListMsg (lags : List ℤ) : String :=
  "Every element of `lags_covariates` must be an integer < 0. Given: " ++
  toString lags ++ "."

/-- The target-lag group from an explicit list (`__init__` lines 169-176). -/
def targetLagsFromList (lags : List ℤ) : Except String (Option (List ℤ)) :=
  lagsFromList (targetLagsListMsg lags) lags

/-- The past-covariate lag group from an explicit list
(`__init__` lines 184-191). -/
def pastLagsFromList (lags : List ℤ) : Except String (Option (List ℤ)) :=
  lagsFromList (pastLagsListMsg lags) lags

/-- `list(range(lo, hi))` over `ℤ`. -/
def intRange (lo hi : ℤ) : List ℤ :=
  (List.range (hi - lo).toNat).map (fun i : ℕ => lo + (i : ℤ))

/-- The sign-check message for the future-covariate span pair
(`__init__`, line 196). -/
def futurePairMsg (pastSpan futureSpan : ℤ) : String :=
  "`lags_future_covariates` tuple must contain integers >= 0. Given: (" ++
  toString pastSpan ++ ", " ++ toString futureSpan ++ ")."

/-- `__init__` lines 193-207: the future-covariate lag group from a
`(past_span, future_span)` pair.  Both components must be `≥ 0`; the pair
`(0, 0)` leaves the group absent; otherwise the group is
`list(range(-past_span, future_span))`. -/
def futureLagsFromPair (pastSpan futureSpan : ℤ) : Except String (Option (List ℤ)) :=
  if 0 ≤ pastSpan ∧ 0 ≤ futureSpan then
    if pastSpan = 0 ∧ futureSpan = 0 then Except.ok none
    else Except.ok (some (intRange (-pastSpan) futureSpan))
  else Except.error (futurePairMsg pastSpan futureSpan)

/-- `__init__` lines 165-168: an integer lag count `k > 0` for the target
group yields `list(range(-k, 0))`. -/
def targetLagsFromCount (k : ℤ) : Except String (Option (List ℤ)) :=
  if 0 < k then Except.ok (some (intRange (-k) 0))
  else Except.error ("`lags` must be strictly positive. Given: " ++ toString k ++ ".")

/-! ## Data frames

A pandas `DataFrame` obtained from a regular-frequency `TimeSeries` is
modelled by its column count, its list of integer time labels, and a cell
function; `NaN` cells are `Option.none`. -/

/-- A pandas `DataFrame` over a regular-frequency integer time axis. -/
structure Frame where
  w : ℕ
  idx : List ℤ
  cells : ℤ → List (Option ℚ)

/-- Pad / truncate a cell row to exactly `w` cells. -/
def setWidth (w : ℕ) (row : List (Option ℚ)) : List (Option ℚ) :=
  row.take w ++ List.replicate (w - row.length) none

/-- The row of a frame at a time label; any label off the index reads as a
full-`NaN` row of the frame's width. -/
def Frame.row (f : Frame) (t : ℤ) : List (Option ℚ) :=
  if t ∈ f.idx then setWidth f.w (f.cells t) else List.replicate f.w none

/-- The frame of a `TimeSeries` (`ts.pd_dataframe()`): value rows at the
consecutive labels `start, start+1, ...`. -/
def mkFrame (start : ℤ) (w : ℕ) (rows : List (List ℚ)) : Frame :=
  ⟨w, (List.range rows.length).map (fun i : ℕ => start + (i : ℤ)),
   fun t => (rows.getD (t - start).toNat []).map some⟩

/-- pandas `DataFrame.shift(p)` on a regular-frequency frame: the index is
kept and the row at label `t` becomes the old row at label `t - p`
(`NaN` where that label falls off the index). -/
def Frame.shift (f : Frame) (p : ℤ) : Frame :=
  ⟨f.w, f.idx, fun t => f.row (t - p)⟩

/-- Sorted duplicate-free union of the time labels of several frames
(the index of a pandas outer join). -/
def unionIdx (fs : List Frame) : List ℤ :=
  ((fs.map Frame.idx).flatten.dedup).insertionSort (· ≤ ·)

/-- pandas `concat(fs, axis=1)` with outer-join alignment: cell rows are
concatenated label-wise, `NaN`-filled where a frame misses a label. -/
def concatFrames (fs : List Frame) : Frame :=
  ⟨(fs.map Frame.w).sum, unionIdx fs, fun t => (fs.map (fun f => f.row t)).flatten⟩

/-- A cell row is fully observed when no cell is `NaN`. -/
def allSome (row : List (Option ℚ)) : Bool := row.all Option.isSome

/-- `df.dropna().values`: the fully-observed rows of a frame, in index
order. -/
def Frame.dropnaValues (f : Frame) : List (List ℚ) :=
  (f.idx.filter (fun t => allSome (f.row t))).map (fun t => (f.row t).reduceOption)

/-! ## Lagged training data (`RegressionModel._create_lagged_data`) -/

/-- One aligned training episode: a target series plus optional past- and
future-covariate series (`fit`, lines 439-450, guarantees a covariate frame
is present exactly when its lag group is). -/
structure Episode where
  target : Frame
  past : Option Frame
  future : Option Frame

/-- The three resolved lag groups of a model (`self.lags`.) -/
structure Lags where
  target : Option (List ℤ)
  past : Option (List ℤ)
  future : Option (List ℤ)

/-- The label frames of one episode: `df_target.shift(-s)` for
`s = 0 .. output_chunk_length - 1` (`_create_lagged_data`, lines 329-331). -/
def yFrames (tgt : Frame) (ocl : ℕ) : List Frame :=
  (List.range ocl).map (fun s : ℕ => tgt.shift (-(s : ℤ)))

/-- The feature frames of one episode, in code order — target lags, then
past-covariate lags, then future-covariate lags, each block being
`df.shift(-lag)` for its lags in list order (`_create_lagged_data`,
lines 333-342; an absent or empty lag group contributes nothing). -/
def xFrames (ep : Episode) (lags : Lags) : List Frame :=
  (match lags.target with
   | some ls => ls.map (fun lag => ep.target.shift (-lag))
   | none => []) ++
  (match ep.past, lags.past with
   | some f, some ls => ls.map (fun lag => f.shift (-lag))
   | _, _ => []) ++
  (match ep.future, lags.future with
   | some f, some ls => ls.map (fun lag => f.shift (-lag))
   | _, _ => [])

/-- The feature-column count `df_X.shape[1]` of one episode. -/
def xWidth (ep : Episode) (lags : Lags) : ℕ :=
  ((xFrames ep lags).map Frame.w).sum

/-- `_create_lagged_data`, per-episode part (lines 325-352): concatenate the
feature and label frames column-wise, drop any row containing `NaN`, then
keep only the most recent `max_samples_per_ts` rows (`X_y[-cap:]`, applied
only when the cap is set and non-zero, mirroring python truthiness). -/
def episodeRows (ep : Episode) (lags : Lags) (ocl : ℕ) (cap : Option ℕ) :
    List (List ℚ) :=
  let rows := (concatFrames (xFrames ep lags ++ yFrames ep.target ocl)).dropnaValues
  match cap with
  | none => rows
  | some c => if c = 0 then rows else rows.drop (rows.length - c)

/-- The data-insufficiency message (`_create_lagged_data`, lines 354-360):
the episode index is named exactly when the collection has more than one
episode. -/
def noSamplesMsg (idx total : ℕ) : String :=
  "Unable to build any training samples of the target series " ++
  (if 1 < total then "at index " ++ toString idx ++ " " else "") ++
  "and the corresponding covariate series; " ++
  "There is no time step for which all required lags are available and are not NaN values."

/-- The per-episode loop of `_create_lagged_data` (lines 308-364): `idx` is
the position of the current episode, `total` the size of the collection. -/
def create_lagged_data_go (lags : Lags) (ocl : ℕ) (cap : Option ℕ) (total : ℕ) :
    ℕ → List Episode → Except String (List (List ℚ) × List (List ℚ))
  | _, [] => Except.ok ([], [])
  | idx, ep :: rest =>
    let rows := episodeRows ep lags ocl cap
    if rows.length = 0 then Except.error (noSamplesMsg idx total)
    else do
      let (xs, ys) ← create_lagged_data_go lags ocl cap total (idx + 1) rest
      Except.ok (rows.map (fun r => r.take (xWidth ep lags)) ++ xs,
                 rows.map (fun r => r.drop (xWidth ep lags)) ++ ys)

/-- `RegressionModel._create_lagged_data` (lines 284-369): per-episode build
(`np.split` at `df_X.shape[1]` separating features from labels) followed by
row-wise concatenation across episodes. -/
def create_lagged_data (eps : List Episode) (lags : Lags) (ocl : ℕ)
    (cap : Option ℕ) : Except String (List (List ℚ) × List (List ℚ)) :=
  create_lagged_data_go lags ocl cap eps.length 0 eps

/-- The observed values of a frame row at a label, `NaN` cells dropped
(all of them present when the row is fully observed). -/
def obsRow (f : Frame) (t : ℤ) : List ℚ :=
  (f.row t).reduceOption

/-- Spec-side feature-row layout for claim C4: for the prediction time
`t`, the target-lag cells (in lag-list order — ascending, since the
construction stores lag groups sorted ascending — components of one lag
kept adjacent), then the past-covariate cells, then the future-covariate
cells. -/
def specXRow (ep : Episode) (lags : Lags) (t : ℤ) : List ℚ :=
  (match lags.target with
   | some ls => (ls.map (fun g => obsRow ep.target (t + g))).flatten
   | none => []) ++
  (match ep.past, lags.past with
   | some f, some ls => (ls.map (fun g => obsRow f (t + g))).flatten
   | _, _ => []) ++
  (match ep.future, lags.future with
   | some f, some ls => (ls.map (fun g => obsRow f (t + g))).flatten
   | _, _ => [])

/-- Spec-side label-row layout for claim C4: for the prediction time `t`,
one block of target components per forecast step `s = 0 .. ocl - 1`. -/
def specYRow (tgt : Frame) (ocl : ℕ) (t : ℤ) : List ℚ :=
  ((List.range ocl).map (fun s : ℕ => obsRow tgt (t + (s : ℤ)))).flatten

/-- Spec-side feature-column count for claim C4: sum over present lag
groups of group size times that series' component width. -/
def xColumns (lags : Lags) (wt wp wf : ℕ) : ℕ :=
  (lags.target.getD []).length * wt + (lags.past.getD []).length * wp +
  (lags.future.getD []).length * wf

/-! ## Autoregressive prediction loop (`RegressionModel.predict`) -/

/-- python `range(start, stop, step)` over `ℕ` for a non-negative step
(an empty range when the step is zero, which python would reject). -/
def rangeStep (start stop step : ℕ) : List ℕ :=
  if h : step = 0 then []
  else if hlt : start < stop then start :: rangeStep (start + step) stop step
  else []
termination_by stop - start
decreasing_by omega

/-- `math.ceil(n / output_chunk_length)` (`predict`, line 595): the
ceiling of the exact division, as python's true division followed by
`math.ceil`. -/
def nPredSteps (n ocl : ℕ) : ℕ := (⌈(n : ℚ) / (ocl : ℚ)⌉).toNat

/-- The prediction loop of `predict` (lines 651-683) for one
(episode × sample) row: one regressor invocation per `t_pred`, each
consuming the block list generated so far (autoregressive feedback:
`np.concatenate([series_matrix, *predictions], axis=1)`) and appending its
freshly predicted block. -/
def predictLoop (reg : ℕ → List (List α) → List α) :
    List ℕ → List (List α) → List (List α)
  | [], preds => preds
  | t :: ts, preds => predictLoop reg ts (preds ++ [reg t preds])

/-- `RegressionModel.predict`, lines 651-686, for one (episode × sample)
row: run the loop over `range(0, n, output_chunk_length)`, concatenate the
blocks along the time axis, keep the first `n` steps
(`np.concatenate(predictions, axis=1)[:, :n]`). -/
def predictSteps (reg : ℕ → List (List α) → List α) (n ocl : ℕ) : List α :=
  ((predictLoop reg (rangeStep 0 n ocl) []).flatten).take n

/-! ## Covariate coverage check (`predict`, lines 594-635) -/

/-- The insufficient-covariate message (`predict`, lines 612-621). -/
def covShortMsg (covType : String) (idx n : ℕ) (lag0 lagLast : ℤ) (ocl : ℕ)
    (firstReq lastReq covStart covEnd : ℤ) : String :=
  "The corresponding " ++ covType ++ "_covariate of the series at index " ++
  toString idx ++ " isn't sufficiently long. Given horizon `n=" ++ toString n ++
  "`, `min(lags_" ++ covType ++ "_covariates)=" ++ toString lag0 ++
  "`, `max(lags_" ++ covType ++ "_covariates)=" ++ toString lagLast ++
  "` and `output_chunk_length=" ++ toString ocl ++ "`\n" ++
  "the " ++ covType ++ "_covariate has to range from " ++ toString firstReq ++
  " until " ++ toString lastReq ++ " (inclusive), but it ranges only from " ++
  toString covStart ++ " until " ++ toString covEnd ++ "."

/-- `predict`, lines 600-621, for one episode: compute the first and last
required covariate time stamps from the prediction window and the lag
bounds (`lags[0]`, `lags[-1]`), and fail with the insufficient-covariate
error when the supplied covariate series does not cover them.  Time stamps
are integers, `freq` the series frequency step, `endTime` the end of the
target series; on success the required window is returned (the code then
slices the covariate series to it). -/
def checkCovCoverage (covType : String) (idx n : ℕ) (ocl : ℕ) (lags : List ℤ)
    (freq endTime covStart covEnd : ℤ) : Except String (ℤ × ℤ) :=
  let firstPredTs := endTime + 1 * freq
  let lastPredTs := firstPredTs + ((nPredSteps n ocl - 1 : ℕ) : ℤ) * (ocl : ℤ) * freq
  let firstReqTs := firstPredTs + lags.headI * freq
  let lastReqTs := lastPredTs + lags.getLastI * freq
  if covStart ≤ firstReqTs ∧ lastReqTs ≤ covEnd then
    Except.ok (firstReqTs, lastReqTs)
  else
    Except.error (covShortMsg covType idx n lags.headI lags.getLastI ocl
      firstReqTs lastReqTs covStart covEnd)

/-! ## Probabilistic strategies (`_LikelihoodMixin`) -/

/-- Split a list into consecutive chunks of `c` elements (the row blocks of
a numpy `reshape`); empty for a zero chunk size. -/
def chunk (c : ℕ) (l : List α) : List (List α) :=
  if h : c = 0 ∨ l.isEmpty then []
  else l.take c :: chunk c (l.drop c)
termination_by l.length
decreasing_by
  simp only [not_or, List.isEmpty_iff] at h
  have : 0 < l.length := List.length_pos.mpr h.2
  have : 0 < c := Nat.pos_of_ne_zero h.1
  simp [List.length_drop]
  omega

/-- numpy `flat.reshape(k, ocl, -1)`: the flat prediction vector as a
`k × ocl × m` tensor with `m = len(flat) / (k·ocl)`. -/
def reshape3 (k ocl : ℕ) (flat : List ℚ) : List (List (List ℚ)) :=
  (chunk (ocl * (flat.length / (k * ocl))) flat).map
    (chunk (flat.length / (k * ocl)))

/-- Double the last entry of a list (tail part of `repeatEdges`). -/
def repeatLastEntry : List ℚ → List ℚ
  | [] => []
  | [v] => [v, v]
  | v :: rest => v :: repeatLastEntry rest

/-- `np.repeat(model_output, repeat_count, axis=-1)` with edge counts of 2
(`_quantile_sampling`, lines 894-899): the first and the last entry of the
quantile axis are doubled (for a single entry, both updates hit the same
count, so it is doubled once). -/
def repeatEdges : List ℚ → List ℚ
  | [] => []
  | [v] => [v, v]
  | v :: rest => v :: v :: repeatLastEntry rest

/-- One scalar cell of `_quantile_sampling` (lines 860-917): `qs` are the
fitted quantile levels in ascending order, `vs` the fitted models' outputs
for this (row, step, component) cell in quantile order, `p` the uniform
draw.  `left_idx` counts the quantile levels strictly below the draw
(`np.sum(p > tquantiles)`); the bracketing output values are read from the
edge-repeated output axis and the bracketing levels from
`[0.0] + quantiles + [1.0]`; the result interpolates linearly.  `none`
models the numpy index error raised when an index leaves its axis
(reachable only with a single fitted quantile level). -/
def quantileCell (qs vs : List ℚ) (p : ℚ) : Option ℚ :=
  let leftIdx := (qs.filter (fun q => decide (q < p))).length
  let rightIdx := leftIdx + 1
  let shifted := repeatEdges vs
  let extQ := 0 :: (qs ++ [1])
  match shifted.get? leftIdx, shifted.get? rightIdx,
        extQ.get? leftIdx, extQ.get? rightIdx with
  | some lv, some rv, some lq, some rq =>
    some (lv + (p - lq) / (rq - lq) * (rv - lv))
  | _, _, _, _ => none

/-- `_quantile_sampling` along the component axis; `probs k` is the uniform
draw of component `k`. -/
def sampleComps (qs : List ℚ) (probs : ℕ → ℚ) :
    ℕ → List (List ℚ) → Option (List ℚ)
  | _, [] => some []
  | k, vs :: rest => do
    let v ← quantileCell qs vs (probs k)
    let tail ← sampleComps qs probs (k + 1) rest
    some (v :: tail)

/-- `_quantile_sampling` along the time-step axis; `probs j k` is the
uniform draw of step `j`, component `k`. -/
def sampleSteps (qs : List ℚ) (probs : ℕ → ℕ → ℚ) :
    ℕ → List (List (List ℚ)) → Option (List (List ℚ))
  | _, [] => some []
  | j, comps :: rest => do
    let r ← sampleComps qs (probs j) 0 comps
    let tail ← sampleSteps qs probs (j + 1) rest
    some (r :: tail)

/-- `_LikelihoodMixin._quantile_sampling` (lines 860-917) over a
`batch × steps × components × quantiles` output tensor: one fresh uniform
draw `probs i j k` per (row, step, component) cell, each cell interpolated
by `quantileCell`. -/
def quantile_sampling (qs : List ℚ) (probs : ℕ → ℕ → ℕ → ℚ) :
    ℕ → List (List (List (List ℚ))) → Option (List (List (List ℚ)))
  | _, [] => some []
  | i, steps :: rest => do
    let r ← sampleSteps qs (probs i) 0 steps
    let tail ← quantile_sampling qs probs (i + 1) rest
    some (r :: tail)

/-- `np.stack(model_outputs, axis=-1)` (line 769): stack equally-shaped
`k × ocl × m` tensors on a new trailing quantile axis. -/
def stackLast (ts : List (List (List (List ℚ)))) : List (List (List (List ℚ))) :=
  match ts with
  | [] => []
  | t0 :: _ =>
    t0.mapIdx (fun i steps => steps.mapIdx (fun j comps => comps.mapIdx
      (fun c _ => ts.map (fun t => ((t.getD i []).getD j []).getD c 0))))

/-- `_LikelihoodMixin._predict_quantiles` (lines 749-776).  The model
container maps each fitted quantile level to that fitted model's flat
prediction function (`_QuantileModelContainer`, ascending level order);
`probs` is the generator's uniform-draw stream.  With `num_samples = 1` the
level-0.5 model's prediction is returned directly (`none` models the python
`KeyError` when no level-0.5 model exists); otherwise every fitted model
predicts, the outputs are stacked on a trailing quantile axis and
`quantile_sampling` interpolates. -/
def predict_quantiles (container : List (ℚ × (List (List ℚ) → List ℚ)))
    (ocl : ℕ) (x : List (List ℚ)) (numSamples : ℕ) (probs : ℕ → ℕ → ℕ → ℚ) :
    Option (List (List (List ℚ))) :=
  if numSamples = 1 then
    match container.lookup (1 / 2 : ℚ) with
    | some fitted => some (reshape3 x.length ocl (fitted x))
    | none => none
  else
    quantile_sampling (container.map Prod.fst) probs 0
      (stackLast (container.map (fun qm => reshape3 x.length ocl (qm.2 x))))

/-- Raw output of a CatBoost `RMSEWithUncertainty` model (`_predict_normal`,
lines 785-789): either the 2-D shape `(rows, 2)` of the univariate
single-chunk case — rows of `(mean, variance)` — or the 3-D shape
`(2, rows, components·chunk)` whose leading axis is mean / variance. -/
inductive NormalOutput
  | two (rows : List (ℚ × ℚ))
  | three (means vars : List (List ℚ))

/-- `_LikelihoodMixin._normal_sampling` (lines 815-837): one normal draw
per scalar channel and sample; `draw i j mu sigma` is the generator's
`j`-th normal draw of channel `i`. -/
def normal_sampling (muSigma : List (List (ℚ × ℚ))) (nSamples ocl : ℕ)
    (draw : ℕ → ℕ → ℚ → ℚ → ℚ) : List (List (List ℚ)) :=
  let samples := muSigma.mapIdx (fun i l => l.mapIdx (fun j ms => draw i j ms.1 ms.2))
  reshape3 nSamples ocl samples.transpose.flatten

/-- `_LikelihoodMixin._predict_normal` (lines 778-813): with
`num_samples = 1` only the mean part of the model output is kept and
reshaped (`model_output[:, 0]` in the 2-D case, `model_output[0, :, :]` in
the 3-D case) — the generator is never consulted; otherwise the
(mean, variance) pairs are regrouped per scalar channel and sampled by
`normal_sampling`. -/
def predict_normal (model : List (List ℚ) → NormalOutput) (ocl : ℕ)
    (x : List (List ℚ)) (numSamples : ℕ) (draw : ℕ → ℕ → ℚ → ℚ → ℚ) :
    List (List (List ℚ)) :=
  match model x with
  | NormalOutput.two rows =>
    if numSamples = 1 then reshape3 x.length ocl (rows.map Prod.fst)
    else normal_sampling [rows] numSamples ocl draw
  | NormalOutput.three means vars =>
    if numSamples = 1 then reshape3 x.length ocl means.flatten
    else normal_sampling ((means.zip vars).map (fun mv => mv.1.zip mv.2)).transpose
      numSamples ocl draw

/-- `_LikelihoodMixin._predict_poisson` (lines 839-851) together with
`_poisson_sampling` (lines 853-858): the model output is the Poisson rate;
with `num_samples = 1` it is returned unchanged (no rounding, no draw);
otherwise `draw i j c lam` is the generator's Poisson draw per cell. -/
def predict_poisson (model : List (List ℚ) → List ℚ) (ocl : ℕ)
    (x : List (List ℚ)) (numSamples : ℕ) (draw : ℕ → ℕ → ℕ → ℚ → ℚ) :
    List (List (List ℚ)) :=
  let modelOutput := reshape3 x.length ocl (model x)
  if numSamples = 1 then modelOutput
  else modelOutput.mapIdx (fun i steps => steps.mapIdx (fun j comps =>
    comps.mapIdx (fun c lam => draw i j c lam)))

/-! ## Covariate bookkeeping between `fit` and `predict` -/

/-- Modelled from the spec: the series-history bookkeeping of the generic
forecasting-model lifecycle (`GlobalForecastingModel.fit`, not under
`src/`) stores the covariate series passed to `fit` in
`self.past_covariate_series` / `self.future_covariate_series` (spec §1
"series history bookkeeping"; `predict` lines 561-564 read them back). -/
structure FitHistory (α : Type) where
  pastCovariateSeries : Option α
  futureCovariateSeries : Option α

/-- Modelled from the spec: `fit` records the covariates it was called
with as the model's stored series history. -/
def storeFitHistory (past future : Option α) : FitHistory α :=
  ⟨past, future⟩

/-- `predict`, lines 561-564: an omitted covariate argument falls back to
the stored fit-time covariate series when one exists; an explicitly
supplied argument is kept. -/
def resolvePredictCov (arg stored : Option α) : Option α :=
  if arg.isNone ∧ stored.isSome then stored else arg

/-- Modelled from the spec: the fit-time/predict-time covariate-mismatch
configuration error — "covariates supplied at predict time that were
absent at fit time or vice versa" (spec §7); `fittedWith` records whether
the model was fitted with this covariate kind, `effective` is the
covariate available after the fallback of `predict` lines 561-564. -/
def covMismatchCheck (fittedWith : Bool) (effective : Option α) :
    Except String Unit :=
  if effective.isSome = fittedWith then Except.ok ()
  else Except.error "covariate mismatch between fit and predict"

/-- Spec-side description for claim C7: the mean components of a raw
`RMSEWithUncertainty` output, flattened in output order. -/
def emittedMean : NormalOutput → List ℚ
  | NormalOutput.two rows => rows.map Prod.fst
  | NormalOutput.three means _ => means.flatten

/-- The zero-row episode of concrete scenario 3: a two-value target, too
short for the lag set `[-2, -1]` — no time step has all lags observed. -/
def scenario3Episode : Episode := ⟨mkFrame 0 1 [[1], [2]], none, none⟩

/-! ## Concrete scenario 1 (claim C1) -/

/-- The single univariate episode of concrete scenario 1: ten observed
values `0..9` at time labels `0..9`, no covariates. -/
def scenario1Episode : Episode :=
  ⟨mkFrame 0 1 [[0], [1], [2], [3], [4], [5], [6], [7], [8], [9]], none, none⟩

/-- The lag configuration of concrete scenario 1: target-lag count 2,
resolved to `list(range(-2, 0)) = [-2, -1]`, no covariate lags. -/
def scenario1Lags : Lags := ⟨some [-2, -1], none, none⟩

/-- C1.  The claim is false as stated: on the `0..9` episode with target
lags `[-2, -1]` and `output_chunk_length = 1`, the first usable training
row (time index `t = 2`) has feature row `[v[t-2], v[t-1]] = [0, 1]`,
not `[v[t-1], v[t-2]] = [1, 0]` — the columns follow ascending lag order
`-2, -1`. -/
theorem c1_feature_order_counterexample :
    create_lagged_data [scenario1Episode] scenario1Lags 1 none =
      Except.ok ([[0, 1], [1, 2], [2, 3], [3, 4], [4, 5], [5, 6], [6, 7], [7, 8]],
                 [[2], [3], [4], [5], [6], [7], [8], [9]]) ∧
    ([0, 1] : List ℚ) ≠ [1, 0] :=
  ⟨rfl, by decide⟩

/-- C1 (amended).  A target-lag count of 2 resolves to the lag set
`[-2, -1]`; on a single univariate episode of the ten observed values
`0..9` with `output_chunk_length = 1` the builder produces exactly 8 usable
training rows (time indices `2..9`), each feature row being
`[v[t-2], v[t-1]]` — the lag columns in ascending lag order — with label
`[v[t]]`. -/
theorem c1_lagged_matrix_scenario1 :
    targetLagsFromCount 2 = Except.ok (some [-2, -1]) ∧
    create_lagged_data [scenario1Episode] scenario1Lags 1 none =
      Except.ok ([[0, 1], [1, 2], [2, 3], [3, 4], [4, 5], [5, 6], [6, 7], [7, 8]],
                 [[2], [3], [4], [5], [6], [7], [8], [9]]) ∧
    [[0, 1], [1, 2], [2, 3], [3, 4], [4, 5], [5, 6], [6, 7], [7, 8]] =
      (List.range 8).map (fun t : ℕ => [(t : ℚ), (t : ℚ) + 1]) ∧
    [[2], [3], [4], [5], [6], [7], [8], [9]] =
      (List.range 8).map (fun t : ℕ => [(t : ℚ) + 2]) :=
  ⟨rfl, rfl, by norm_num [List.range_succ], by norm_num [List.range_succ]⟩

/-! ## Claim C2: explicit target / past-covariate lag lists -/

/-- C2.  The claim is false as stated: duplicate lag values do **not**
collapse — python `sorted` keeps them — so the explicit list `[-1, -1]`
yields the stored lag list `[-1, -1]`, not the single occurrence `[-1]`. -/
theorem c2_duplicates_counterexample :
    targetLagsFromList [-1, -1] = Except.ok (some [-1, -1]) ∧
    ([-1, -1] : List ℤ) ≠ [-1] :=
  ⟨rfl, by decide⟩

/-- C2 (amended).  For an explicit target or past-covariate lag list: if
every element is strictly negative and the list is non-empty, the stored
group is the input list sorted ascending, duplicates preserved (the result
is a permutation of the input); if some element is `≥ 0`, a configuration
error is raised. -/
theorem c2_explicit_lag_lists (msg : String) (lags : List ℤ) :
    ((∀ lag ∈ lags, lag < 0) → lags ≠ [] →
      ∃ out, lagsFromList msg lags = Except.ok (some out) ∧
        out.Sorted (· ≤ ·) ∧ out.Perm lags) ∧
    ((∃ lag ∈ lags, 0 ≤ lag) →
      lagsFromList msg lags = Except.error msg) := by
  constructor
  · intro hneg hne
    refine ⟨lags.insertionSort (· ≤ ·), ?_, ?_, ?_⟩
    · unfold lagsFromList
      rw [if_pos, if_neg]
      · simpa [List.isEmpty_iff] using hne
      · simpa [List.all_eq_true] using hneg
    · exact List.sorted_insertionSort (· ≤ ·) lags
    · exact List.perm_insertionSort (· ≤ ·) lags
  · rintro ⟨lag, hmem, hge⟩
    unfold lagsFromList
    rw [if_neg]
    simp only [List.all_eq_true, decide_eq_true_eq]
    intro hall
    exact absurd (hall lag hmem) (by omega)

/-- C2 witness: the explicit list `[-1, -3, -1]` is accepted, sorted and
kept with its duplicate; the list `[2, -1]` is rejected. -/
theorem c2_explicit_lag_lists_witness :
    (∃ out, lagsFromList (targetLagsListMsg [-1, -3, -1]) [-1, -3, -1] =
        Except.ok (some out) ∧
      out.Sorted (· ≤ ·) ∧ out.Perm [-1, -3, -1]) ∧
    lagsFromList (targetLagsListMsg [2, -1]) [2, -1] =
      Except.error (targetLagsListMsg [2, -1]) :=
  ⟨(c2_explicit_lag_lists (targetLagsListMsg [-1, -3, -1]) [-1, -3, -1]).1
      (by decide) (by decide),
   (c2_explicit_lag_lists (targetLagsListMsg [2, -1]) [2, -1]).2
      ⟨2, by decide, by decide⟩⟩

/-! ## Claim C3: future-covariate span pairs -/

theorem intRange_mem (lo hi x : ℤ) : x ∈ intRange lo hi ↔ lo ≤ x ∧ x < hi := by
  simp only [intRange, List.mem_map, List.mem_range]
  constructor
  · rintro ⟨i, hi2, rfl⟩
    omega
  · rintro ⟨h1, h2⟩
    exact ⟨(x - lo).toNat, by omega, by omega⟩

theorem intRange_sorted (lo hi : ℤ) : (intRange lo hi).Sorted (· < ·) := by
  simp only [intRange, List.Sorted, List.pairwise_map]
  refine (List.pairwise_lt_range _).imp ?_
  intro a b hab
  omega

/-- C3.  A future-covariate pair `(past_span, future_span)` with both
components `≥ 0` and not both zero yields exactly the ascending lag set
`{-past_span, ..., future_span - 1}`; the pair `(0, 0)` yields no future
lag group at all; a pair with a negative component raises a configuration
error. -/
theorem c3_future_pair (a b : ℤ) :
    ((0 ≤ a ∧ 0 ≤ b) → ¬(a = 0 ∧ b = 0) →
      futureLagsFromPair a b = Except.ok (some (intRange (-a) b)) ∧
      (intRange (-a) b).Sorted (· < ·) ∧
      (∀ x : ℤ, x ∈ intRange (-a) b ↔ -a ≤ x ∧ x < b)) ∧
    futureLagsFromPair 0 0 = Except.ok none ∧
    (¬(0 ≤ a ∧ 0 ≤ b) →
      futureLagsFromPair a b = Except.error (futurePairMsg a b)) := by
  refine ⟨fun hpos hnz => ⟨?_, intRange_sorted _ _, fun x => intRange_mem _ _ x⟩,
    rfl, fun hneg => ?_⟩
  · unfold futureLagsFromPair
    rw [if_pos hpos, if_neg hnz]
  · unfold futureLagsFromPair
    rw [if_neg hneg]

/-- C3 witness: the pair `(1, 2)` yields the lag group `[-1, 0, 1]`; the
pair `(0, 0)` yields no group; the pair `(-1, 2)` is rejected. -/
theorem c3_future_pair_witness :
    futureLagsFromPair 1 2 = Except.ok (some (intRange (-1) 2)) ∧
    intRange (-1) 2 = [-1, 0, 1] ∧
    futureLagsFromPair 0 0 = Except.ok none ∧
    futureLagsFromPair (-1) 2 = Except.error (futurePairMsg (-1) 2) :=
  ⟨((c3_future_pair 1 2).1 (by decide) (by decide)).1, by decide,
   (c3_future_pair (-1) 2).2.1,
   (c3_future_pair (-1) 2).2.2 (by decide)⟩

/-! ## Claim C10: stored fit-time covariates are reused at predict time -/

/-- C10.  After fitting with past and future covariates, a `predict` call
that omits them falls back to the stored fit-time series (`predict`,
lines 561-564), so the effective covariates are present again and the
fit-time/predict-time covariate-mismatch configuration error is not
raised. -/
theorem c10_stored_covariates_reused {α : Type} (pc fc : α) :
    resolvePredictCov none (storeFitHistory (some pc) (some fc)).pastCovariateSeries
        = some pc ∧
    resolvePredictCov none (storeFitHistory (some pc) (some fc)).futureCovariateSeries
        = some fc ∧
    covMismatchCheck true
        (resolvePredictCov none (storeFitHistory (some pc) (some fc)).pastCovariateSeries)
        = Except.ok () ∧
    covMismatchCheck true
        (resolvePredictCov none (storeFitHistory (some pc) (some fc)).futureCovariateSeries)
        = Except.ok () := by
  refine ⟨rfl, rfl, ?_, ?_⟩ <;> rfl

/-! ## Claim C5: exact horizon length and regressor invocation count -/

theorem rangeStep_eq_nil (start stop step : ℕ) (h : stop ≤ start) :
    rangeStep start stop step = [] := by
  rw [rangeStep]
  split
  · rfl
  · rw [dif_neg (by omega)]

theorem rangeStep_eq_cons (start stop step : ℕ) (h0 : step ≠ 0) (h : start < stop) :
    rangeStep start stop step = start :: rangeStep (start + step) stop step := by
  rw [rangeStep, dif_neg h0, dif_pos h]

theorem rangeStep_length (start stop step : ℕ) (hstep : 0 < step) :
    (rangeStep start stop step).length = (stop - start + step - 1) / step := by
  by_cases h : start < stop
  · rw [rangeStep_eq_cons _ _ _ (by omega) h, List.length_cons,
        rangeStep_length (start + step) stop step hstep]
    by_cases hd : step ≤ stop - start
    · have e1 : stop - (start + step) + step - 1 = stop - start - 1 := by omega
      have e2 : stop - start + step - 1 = (stop - start - 1) + step := by omega
      rw [e1, e2, Nat.add_div_right _ hstep]
    · have e1 : stop - (start + step) + step - 1 = step - 1 := by omega
      rw [e1, Nat.div_eq_of_lt (by omega),
        Nat.div_eq_of_lt_le (k := 1) (by omega) (by omega)]
  · rw [rangeStep_eq_nil _ _ _ (by omega), List.length_nil,
        Nat.div_eq_of_lt (by omega)]
termination_by stop - start
decreasing_by omega

theorem le_ceilNum_mul (n ocl : ℕ) (h : 0 < ocl) :
    n ≤ ((n + ocl - 1) / ocl) * ocl := by
  have h1 := Nat.div_add_mod (n + ocl - 1) ocl
  have h2 := Nat.mod_lt (n + ocl - 1) h
  rw [Nat.mul_comm]
  generalize ocl * ((n + ocl - 1) / ocl) = A at h1 ⊢
  omega

theorem ceilNum_mul_le (n ocl : ℕ) :
    ((n + ocl - 1) / ocl) * ocl ≤ n + ocl - 1 := Nat.div_mul_le_self _ _

theorem nPredSteps_eq (n ocl : ℕ) (h : 0 < ocl) :
    nPredSteps n ocl = (n + ocl - 1) / ocl := by
  have hocl : (0 : ℚ) < (ocl : ℚ) := by exact_mod_cast h
  have hA : (n : ℚ) ≤ (((n + ocl - 1) / ocl : ℕ) : ℚ) * (ocl : ℚ) := by
    exact_mod_cast le_ceilNum_mul n ocl h
  have hB : (((n + ocl - 1) / ocl : ℕ) : ℚ) * (ocl : ℚ) ≤ (n : ℚ) + (ocl : ℚ) - 1 := by
    have h4 : ((((n + ocl - 1) / ocl) * ocl : ℕ) : ℚ) ≤ ((n + ocl - 1 : ℕ) : ℚ) := by
      exact_mod_cast ceilNum_mul_le n ocl
    have h5 : ((n + ocl - 1 : ℕ) : ℚ) = (n : ℚ) + (ocl : ℚ) - 1 := by
      have h6 : ((n + ocl - 1 : ℕ) : ℤ) = (n : ℤ) + (ocl : ℤ) - 1 := by omega
      exact_mod_cast h6
    rw [Nat.cast_mul] at h4
    linarith
  have hceil : ⌈(n : ℚ) / (ocl : ℚ)⌉ = (((n + ocl - 1) / ocl : ℕ) : ℤ) := by
    rw [Int.ceil_eq_iff]
    refine ⟨?_, ?_⟩
    · rw [Int.cast_natCast, lt_div_iff₀ hocl]
      nlinarith [hB]
    · rw [Int.cast_natCast, div_le_iff₀ hocl]
      nlinarith [hA]
  unfold nPredSteps
  rw [hceil, Int.toNat_natCast]

theorem predictLoop_length {α : Type} (reg : ℕ → List (List α) → List α)
    (ts : List ℕ) (preds : List (List α)) :
    (predictLoop reg ts preds).length = preds.length + ts.length := by
  induction ts generalizing preds with
  | nil => simp [predictLoop]
  | cons t ts ih => simp [predictLoop, ih]; omega

theorem predictLoop_block_length {α : Type} (reg : ℕ → List (List α) → List α)
    (ocl : ℕ) (hreg : ∀ t preds, (reg t preds).length = ocl) (ts : List ℕ) :
    ∀ preds : List (List α), (∀ b ∈ preds, b.length = ocl) →
      ∀ b ∈ predictLoop reg ts preds, b.length = ocl := by
  induction ts with
  | nil => intro preds h b hb; exact h b hb
  | cons t ts ih =>
    intro preds h b hb
    refine ih _ ?_ b hb
    intro c hc
    rcases List.mem_append.mp hc with h1 | h2
    · exact h c h1
    · rw [List.mem_singleton.mp h2]
      exact hreg t preds

theorem flatten_length_const {α : Type} (ocl : ℕ) (l : List (List α))
    (h : ∀ b ∈ l, b.length = ocl) : l.flatten.length = l.length * ocl := by
  induction l with
  | nil => simp
  | cons b l ih =>
    simp only [List.flatten_cons, List.length_append, List.length_cons,
      ih (fun c hc => h c (List.mem_cons_of_mem _ hc)),
      h b (List.mem_cons_self _ _)]
    ring

/-- C5.  For any regressor whose every invocation emits a block of
`output_chunk_length` steps, and any horizon `n ≥ 1`, the prediction loop
returns exactly `n` steps (the final block is truncated by `take n` when
`n` is not a multiple of `output_chunk_length`), and the number of
regressor invocations — the length of `range(0, n, output_chunk_length)`,
one invocation per loop iteration — is `ceil(n / output_chunk_length)`. -/
theorem c5_predict_horizon {α : Type} (reg : ℕ → List (List α) → List α)
    (n ocl : ℕ) (hocl : 0 < ocl) (hn : 0 < n)
    (hreg : ∀ t preds, (reg t preds).length = ocl) :
    (predictSteps reg n ocl).length = n ∧
    (rangeStep 0 n ocl).length = nPredSteps n ocl := by
  have hcount : (rangeStep 0 n ocl).length = (n + ocl - 1) / ocl := by
    simpa using rangeStep_length 0 n ocl hocl
  have hceil := nPredSteps_eq n ocl hocl
  refine ⟨?_, by rw [hcount, hceil]⟩
  unfold predictSteps
  rw [List.length_take,
    flatten_length_const ocl _ (predictLoop_block_length reg ocl hreg _ _ (by simp)),
    predictLoop_length, hcount]
  simp only [List.length_nil, Nat.zero_add]
  exact Nat.min_eq_left (le_ceilNum_mul n ocl hocl)

/-- C5 witness: a regressor always emitting 3-step blocks, asked for
horizon 7, yields exactly 7 steps in `ceil(7/3) = 3` invocations. -/
theorem c5_predict_horizon_witness :
    (predictSteps (fun _ _ => List.replicate 3 (0 : ℚ)) 7 3).length = 7 ∧
    (rangeStep 0 7 3).length = nPredSteps 7 3 :=
  c5_predict_horizon (fun _ _ => List.replicate 3 (0 : ℚ)) 7 3 (by decide) (by decide)
    (fun _ _ => rfl)

/-! ## Claim C6: the required covariate window at predict time -/

theorem nPredSteps_pos (n ocl : ℕ) (hocl : 0 < ocl) (hn : 0 < n) :
    0 < nPredSteps n ocl := by
  rw [nPredSteps_eq n ocl hocl]
  exact Nat.div_pos (by omega) hocl

theorem headI_eq_head {α : Type} [Inhabited α] (l : List α) (h : l ≠ []) :
    l.headI = l.head h := by
  cases l with
  | nil => exact absurd rfl h
  | cons a t => rfl

theorem getLastI_eq_getLast {α : Type} [Inhabited α] (l : List α) (h : l ≠ []) :
    l.getLastI = l.getLast h := by
  rw [List.getLastI_eq_getLast?, List.getLast?_eq_getLast l h, Option.iget_some]

/-- C6.  For each covariate group, the coverage check of `predict` demands
exactly the window from `lag[0]` steps relative to the first prediction
step (one frequency step past the end of the target) up to `lag[-1]` steps
relative to the last prediction step, the last prediction step lying
`(ceil(n / output_chunk_length) - 1) · output_chunk_length` steps after the
first; when the supplied covariate series does not cover that window the
check fails with the insufficient-covariate error naming the episode
index, both lag bounds, and the exact required start and end timestamps. -/
theorem c6_covariate_window (covType : String) (idx n ocl : ℕ) (lags : List ℤ)
    (freq endTime covStart covEnd : ℤ) (hocl : 0 < ocl) (hn : 0 < n)
    (hne : lags ≠ []) :
    checkCovCoverage covType idx n ocl lags freq endTime covStart covEnd =
      (let firstPred := endTime + freq
       let lastPred := firstPred + ((nPredSteps n ocl : ℤ) - 1) * (ocl : ℤ) * freq
       let reqStart := firstPred + lags.head hne * freq
       let reqEnd := lastPred + lags.getLast hne * freq
       if covStart ≤ reqStart ∧ reqEnd ≤ covEnd then Except.ok (reqStart, reqEnd)
       else Except.error (covShortMsg covType idx n (lags.head hne)
         (lags.getLast hne) ocl reqStart reqEnd covStart covEnd)) := by
  have hpos := nPredSteps_pos n ocl hocl hn
  have hcast : ((nPredSteps n ocl - 1 : ℕ) : ℤ) = (nPredSteps n ocl : ℤ) - 1 := by
    omega
  unfold checkCovCoverage
  rw [headI_eq_head lags hne, getLastI_eq_getLast lags hne, hcast, one_mul]

/-- C6 witness: concrete scenario 2 — future lag group `[-1, 0, 1]`,
horizon `n = 3`, `output_chunk_length = 1`, target ending at time 9 with
frequency 1: the required window runs from one step before the first
prediction step (time 9) to one step after the last (time 13). -/
theorem c6_covariate_window_witness :
    checkCovCoverage "future" 0 3 1 [-1, 0, 1] 1 9 0 20 =
      (let firstPred := (9 : ℤ) + 1
       let lastPred := firstPred + ((nPredSteps 3 1 : ℤ) - 1) * (1 : ℤ) * 1
       let reqStart := firstPred + ([-1, 0, 1] : List ℤ).head (by decide) * 1
       let reqEnd := lastPred + ([-1, 0, 1] : List ℤ).getLast (by decide) * 1
       if (0 : ℤ) ≤ reqStart ∧ reqEnd ≤ 20 then Except.ok (reqStart, reqEnd)
       else Except.error (covShortMsg "future" 0 3 (([-1, 0, 1] : List ℤ).head (by decide))
         (([-1, 0, 1] : List ℤ).getLast (by decide)) 1 reqStart reqEnd 0 20)) :=
  c6_covariate_window "future" 0 3 1 [-1, 0, 1] 1 9 0 20 (by decide) (by decide)
    (by decide)

/-! ## Claim C7: deterministic point estimates at `num_samples = 1` -/

/-- C7.  With `num_samples = 1` each of the three sampling strategies is a
deterministic point estimate independent of the generator: the quantile
strategy returns the fitted level-0.5 model's prediction, the Gaussian
strategy returns the emitted mean, and the Poisson strategy returns the
emitted rate unchanged — no draw function is ever consulted. -/
theorem c7_num_samples_one_deterministic
    (container : List (ℚ × (List (List ℚ) → List ℚ)))
    (fitted : List (List ℚ) → List ℚ)
    (hmed : container.lookup (1 / 2 : ℚ) = some fitted)
    (nmodel : List (List ℚ) → NormalOutput)
    (pmodel : List (List ℚ) → List ℚ)
    (ocl : ℕ) (x : List (List ℚ))
    (probs probs2 : ℕ → ℕ → ℕ → ℚ)
    (draw draw2 : ℕ → ℕ → ℚ → ℚ → ℚ)
    (pdraw pdraw2 : ℕ → ℕ → ℕ → ℚ → ℚ) :
    (predict_quantiles container ocl x 1 probs =
        predict_quantiles container ocl x 1 probs2 ∧
      predict_quantiles container ocl x 1 probs =
        some (reshape3 x.length ocl (fitted x))) ∧
    (predict_normal nmodel ocl x 1 draw = predict_normal nmodel ocl x 1 draw2 ∧
      predict_normal nmodel ocl x 1 draw =
        reshape3 x.length ocl (emittedMean (nmodel x))) ∧
    (predict_poisson pmodel ocl x 1 pdraw =
        predict_poisson pmodel ocl x 1 pdraw2 ∧
      predict_poisson pmodel ocl x 1 pdraw =
        reshape3 x.length ocl (pmodel x)) := by
  refine ⟨⟨?_, ?_⟩, ⟨?_, ?_⟩, ⟨?_, ?_⟩⟩
  · unfold predict_quantiles
    rw [if_pos rfl, if_pos rfl]
  · unfold predict_quantiles
    rw [if_pos rfl, hmed]
  · cases h : nmodel x <;> simp [predict_normal, emittedMean, h]
  · cases h : nmodel x <;> simp [predict_normal, emittedMean, h]
  · simp [predict_poisson]
  · simp [predict_poisson]

/-- C7 witness: a one-entry quantile container at level 0.5, a Gaussian
model emitting `(mean, variance) = (5, 1)` and a Poisson model emitting
rate 4, evaluated with two different generators each. -/
theorem c7_num_samples_one_deterministic_witness :
    (predict_quantiles [((1 : ℚ) / 2, fun _ => [1, 2])] 1 [[0], [0]] 1
          (fun _ _ _ => 0) =
        predict_quantiles [((1 : ℚ) / 2, fun _ => [1, 2])] 1 [[0], [0]] 1
          (fun _ _ _ => 1) ∧
      predict_quantiles [((1 : ℚ) / 2, fun _ => [1, 2])] 1 [[0], [0]] 1
          (fun _ _ _ => 0) =
        some (reshape3 ([[(0 : ℚ)], [0]] : List (List ℚ)).length 1 [1, 2])) ∧
    (predict_normal (fun _ => NormalOutput.two [(5, 1)]) 1 [[0], [0]] 1
          (fun _ _ mu _ => mu) =
        predict_normal (fun _ => NormalOutput.two [(5, 1)]) 1 [[0], [0]] 1
          (fun _ _ _ s => s) ∧
      predict_normal (fun _ => NormalOutput.two [(5, 1)]) 1 [[0], [0]] 1
          (fun _ _ mu _ => mu) =
        reshape3 ([[(0 : ℚ)], [0]] : List (List ℚ)).length 1
          (emittedMean (NormalOutput.two [(5, 1)]))) ∧
    (predict_poisson (fun _ => [4]) 1 [[0], [0]] 1 (fun _ _ _ lam => lam) =
        predict_poisson (fun _ => [4]) 1 [[0], [0]] 1 (fun _ _ _ _ => 0) ∧
      predict_poisson (fun _ => [4]) 1 [[0], [0]] 1 (fun _ _ _ lam => lam) =
        reshape3 ([[(0 : ℚ)], [0]] : List (List ℚ)).length 1 [4]) :=
  c7_num_samples_one_deterministic [((1 : ℚ) / 2, fun _ => [1, 2])]
    (fun _ => [1, 2]) (by simp) (fun _ => NormalOutput.two [(5, 1)])
    (fun _ => [4]) 1 [[0], [0]] (fun _ _ _ => 0) (fun _ _ _ => 1)
    (fun _ _ mu _ => mu) (fun _ _ _ s => s) (fun _ _ _ lam => lam)
    (fun _ _ _ _ => 0)

/-! ## Claim C9: the data-insufficiency error -/

theorem create_lagged_data_go_error (lags : Lags) (ocl : ℕ) (cap : Option ℕ)
    (total : ℕ) (pre : List Episode) :
    ∀ (idx : ℕ) (ep : Episode) (post : List Episode),
      (∀ p ∈ pre, (episodeRows p lags ocl cap).length ≠ 0) →
      (episodeRows ep lags ocl cap).length = 0 →
      create_lagged_data_go lags ocl cap total idx (pre ++ ep :: post) =
        Except.error (noSamplesMsg (idx + pre.length) total) := by
  induction pre with
  | nil =>
    intro idx ep post hb hz
    simp [create_lagged_data_go, hz]
  | cons p pre ih =>
    intro idx ep post hb hz
    have hp := hb p (List.mem_cons_self _ _)
    simp only [List.cons_append, create_lagged_data_go]
    rw [if_neg hp]
    have hrec := ih (idx + 1) ep post (fun q hq => hb q (List.mem_cons_of_mem _ hq)) hz
    have harith : idx + 1 + pre.length = idx + (p :: pre).length := by
      simp only [List.length_cons]
      omega
    rw [harith] at hrec
    simp only [List.append_eq]
    rw [hrec]
    rfl

/-- C9.  If an episode of the collection yields zero usable rows after the
`NaN`-dropping and the per-episode sample cap (and every earlier episode
yields at least one row, so the loop reaches it), the lagged-data build
fails with the data-insufficiency error; the message names the offending
episode's position exactly when the collection holds more than one
episode. -/
theorem c9_zero_rows_error (lags : Lags) (ocl : ℕ) (cap : Option ℕ)
    (pre post : List Episode) (ep : Episode)
    (hb : ∀ p ∈ pre, (episodeRows p lags ocl cap).length ≠ 0)
    (hz : (episodeRows ep lags ocl cap).length = 0) :
    create_lagged_data (pre ++ ep :: post) lags ocl cap =
      Except.error (noSamplesMsg pre.length (pre ++ ep :: post).length) ∧
    noSamplesMsg pre.length (pre ++ ep :: post).length =
      "Unable to build any training samples of the target series " ++
      (if 1 < (pre ++ ep :: post).length
        then "at index " ++ toString pre.length ++ " " else "") ++
      "and the corresponding covariate series; " ++
      "There is no time step for which all required lags are available and are not NaN values." := by
  refine ⟨?_, rfl⟩
  unfold create_lagged_data
  simpa using create_lagged_data_go_error lags ocl cap
    (pre ++ ep :: post).length pre 0 ep post hb hz

/-- C9 witness: concrete scenario 3 — a healthy `0..9` episode followed by
a two-value episode that admits no usable row under lags `[-2, -1]`; the
build fails naming index 1 (the collection has two episodes). -/
theorem c9_zero_rows_error_witness :
    create_lagged_data [scenario1Episode, scenario3Episode] scenario1Lags 1 none =
      Except.error (noSamplesMsg 1 2) ∧
    noSamplesMsg 1 2 =
      "Unable to build any training samples of the target series " ++
      (if 1 < 2 then "at index " ++ toString 1 ++ " " else "") ++
      "and the corresponding covariate series; " ++
      "There is no time step for which all required lags are available and are not NaN values." :=
  c9_zero_rows_error scenario1Lags 1 none [scenario1Episode] [] scenario3Episode
    (by decide) (by decide)

/-! ## Claim C4: matrix column counts and column ordering -/

theorem setWidth_length (w : ℕ) (row : List (Option ℚ)) :
    (setWidth w row).length = w := by
  simp [setWidth]
  omega

theorem setWidth_eq_self {w : ℕ} {row : List (Option ℚ)} (h : row.length = w) :
    setWidth w row = row := by
  subst h
  simp [setWidth]

theorem Frame.row_length (f : Frame) (t : ℤ) : (f.row t).length = f.w := by
  unfold Frame.row
  split
  · exact setWidth_length _ _
  · exact List.length_replicate _ _

theorem shift_row (f : Frame) (p t : ℤ) :
    (f.shift p).row t =
      if t ∈ f.idx then f.row (t - p) else List.replicate f.w none := by
  simp only [Frame.shift, Frame.row]
  split
  · exact setWidth_eq_self (f.row_length _)
  · rfl

theorem allSome_append {a b : List (Option ℚ)} :
    allSome (a ++ b) = (allSome a && allSome b) := by
  simp [allSome, List.all_append]

theorem allSome_replicate_none {w : ℕ}
    (h : allSome (List.replicate w (none : Option ℚ)) = true) : w = 0 := by
  cases w with
  | zero => rfl
  | succ n => simp [allSome, List.replicate_succ] at h

theorem reduceOption_length_allSome {l : List (Option ℚ)} (h : allSome l = true) :
    l.reduceOption.length = l.length :=
  List.reduceOption_length_eq_iff.mpr (by simpa [allSome, List.all_eq_true] using h)

theorem shift_row_allSome {f : Frame} {p t : ℤ}
    (h : allSome ((f.shift p).row t) = true) :
    (f.shift p).row t = f.row (t - p) := by
  by_cases hmem : t ∈ f.idx
  · simp [shift_row, hmem]
  · rw [shift_row, if_neg hmem] at h ⊢
    have hw := allSome_replicate_none h
    have hl := f.row_length (t - p)
    rw [hw] at hl ⊢
    rw [List.replicate_zero]
    exact (List.eq_nil_of_length_eq_zero hl).symm

theorem unionIdx_mem {fs : List Frame} {t : ℤ} :
    t ∈ unionIdx fs ↔ ∃ f ∈ fs, t ∈ f.idx := by
  unfold unionIdx
  rw [(List.perm_insertionSort _ _).mem_iff, List.mem_dedup, List.mem_flatten]
  simp

theorem concat_cells_length (fs : List Frame) (t : ℤ) :
    ((fs.map (fun f => f.row t)).flatten).length = (fs.map Frame.w).sum := by
  rw [List.length_flatten, List.map_map]
  congr 1
  exact List.map_congr_left (fun f _ => f.row_length t)

theorem concat_row_of_mem {fs : List Frame} {t : ℤ} (h : t ∈ unionIdx fs) :
    (concatFrames fs).row t = (fs.map (fun f => f.row t)).flatten := by
  simp only [concatFrames, Frame.row]
  rw [if_pos h]
  exact setWidth_eq_self (concat_cells_length fs t)

theorem dropnaValues_mem {f : Frame} {r : List ℚ} (h : r ∈ f.dropnaValues) :
    ∃ t, t ∈ f.idx ∧ allSome (f.row t) = true ∧ r = (f.row t).reduceOption := by
  unfold Frame.dropnaValues at h
  rcases List.mem_map.mp h with ⟨t, ht, rfl⟩
  rcases List.mem_filter.mp ht with ⟨ht1, ht2⟩
  exact ⟨t, ht1, by simpa using ht2, rfl⟩

theorem episodeRows_mem {ep : Episode} {lags : Lags} {ocl : ℕ} {cap : Option ℕ}
    {r : List ℚ} (h : r ∈ episodeRows ep lags ocl cap) :
    ∃ t, t ∈ unionIdx (xFrames ep lags ++ yFrames ep.target ocl) ∧
      allSome ((concatFrames (xFrames ep lags ++ yFrames ep.target ocl)).row t) = true ∧
      r = ((concatFrames (xFrames ep lags ++ yFrames ep.target ocl)).row t).reduceOption := by
  have h2 : r ∈ (concatFrames (xFrames ep lags ++ yFrames ep.target ocl)).dropnaValues := by
    unfold episodeRows at h
    cases cap with
    | none => exact h
    | some c =>
      dsimp only at h
      by_cases hc : c = 0
      · simpa [hc] using h
      · rw [if_neg hc] at h
        exact List.mem_of_mem_drop h
  exact dropnaValues_mem h2

theorem allSome_flatten {ls : List (List (Option ℚ))} :
    allSome ls.flatten = ls.all (fun l => allSome l) := by
  induction ls with
  | nil => rfl
  | cons l ls ih => rw [List.flatten_cons, allSome_append, ih, List.all_cons]

theorem reduceOption_flatten (ls : List (List (Option ℚ))) :
    ls.flatten.reduceOption = (ls.map List.reduceOption).flatten := by
  simp [List.reduceOption, List.filterMap_flatten]

theorem obs_flatten_length {fs : List Frame} {t : ℤ}
    (h : ∀ f ∈ fs, allSome (f.row t) = true) :
    ((fs.map (fun f => (f.row t).reduceOption)).flatten).length
      = (fs.map Frame.w).sum := by
  rw [List.length_flatten, List.map_map]
  congr 1
  refine List.map_congr_left (fun f hf => ?_)
  show (f.row t).reduceOption.length = f.w
  rw [reduceOption_length_allSome (h f hf), f.row_length]

theorem shift_block_obs {g : Frame} {t : ℤ} {ls : List ℤ}
    (h : ∀ lag ∈ ls, allSome ((g.shift (-lag)).row t) = true) :
    ((ls.map (fun lag => g.shift (-lag))).map
        (fun f => (f.row t).reduceOption)).flatten
      = (ls.map (fun lag => obsRow g (t + lag))).flatten := by
  rw [List.map_map]
  congr 1
  refine List.map_congr_left (fun lag hlag => ?_)
  show ((g.shift (-lag)).row t).reduceOption = obsRow g (t + lag)
  rw [shift_row_allSome (h lag hlag)]
  unfold obsRow
  norm_num [sub_neg_eq_add]

theorem yframes_obs {g : Frame} {t : ℤ} {ocl : ℕ}
    (h : ∀ f ∈ yFrames g ocl, allSome (f.row t) = true) :
    ((yFrames g ocl).map (fun f => (f.row t).reduceOption)).flatten
      = specYRow g ocl t := by
  unfold yFrames specYRow
  rw [List.map_map]
  congr 1
  refine List.map_congr_left (fun s hs => ?_)
  show ((g.shift (-(s : ℤ))).row t).reduceOption = obsRow g (t + (s : ℤ))
  have hmem : g.shift (-(s : ℤ)) ∈ yFrames g ocl := by
    unfold yFrames
    exact List.mem_map_of_mem _ hs
  rw [shift_row_allSome (h _ hmem)]
  unfold obsRow
  norm_num [sub_neg_eq_add]

theorem xframes_obs {ep : Episode} {lags : Lags} {t : ℤ}
    (h : ∀ f ∈ xFrames ep lags, allSome (f.row t) = true) :
    ((xFrames ep lags).map (fun f => (f.row t).reduceOption)).flatten
      = specXRow ep lags t := by
  unfold xFrames at h
  unfold xFrames specXRow
  rw [List.map_append, List.map_append, List.flatten_append, List.flatten_append]
  congr 1
  · congr 1
    · cases htgt : lags.target with
      | none => rfl
      | some ls =>
        refine shift_block_obs (fun lag hlag => ?_)
        refine h _ (List.mem_append_left _ (List.mem_append_left _ ?_))
        rw [htgt]
        exact List.mem_map_of_mem _ hlag
    · cases hpast : ep.past with
      | none => cases lags.past <;> rfl
      | some f =>
        cases hlp : lags.past with
        | none => rfl
        | some ls =>
          refine shift_block_obs (fun lag hlag => ?_)
          refine h _ (List.mem_append_left _ (List.mem_append_right _ ?_))
          rw [hpast, hlp]
          exact List.mem_map_of_mem _ hlag
  · cases hfut : ep.future with
    | none => cases lags.future <;> rfl
    | some f =>
      cases hlf : lags.future with
      | none => rfl
      | some ls =>
        refine shift_block_obs (fun lag hlag => ?_)
        refine h _ (List.mem_append_right _ ?_)
        rw [hfut, hlf]
        exact List.mem_map_of_mem _ hlag

theorem episodeRows_spec {ep : Episode} {lags : Lags} {ocl : ℕ} {cap : Option ℕ}
    {r : List ℚ} (hr : r ∈ episodeRows ep lags ocl cap) :
    ∃ t : ℤ, r = specXRow ep lags t ++ specYRow ep.target ocl t ∧
      (specXRow ep lags t).length = xWidth ep lags ∧
      (specYRow ep.target ocl t).length = ocl * ep.target.w := by
  obtain ⟨t, htmem, hall, hrow⟩ := episodeRows_mem hr
  rw [concat_row_of_mem htmem] at hall hrow
  have hallf : ∀ f ∈ xFrames ep lags ++ yFrames ep.target ocl,
      allSome (f.row t) = true := by
    rw [allSome_flatten, List.all_eq_true] at hall
    intro f hf
    exact hall _ (List.mem_map_of_mem _ hf)
  have hX : ∀ f ∈ xFrames ep lags, allSome (f.row t) = true :=
    fun f hf => hallf f (List.mem_append_left _ hf)
  have hY : ∀ f ∈ yFrames ep.target ocl, allSome (f.row t) = true :=
    fun f hf => hallf f (List.mem_append_right _ hf)
  refine ⟨t, ?_, ?_, ?_⟩
  · rw [hrow, reduceOption_flatten, List.map_map, List.map_append,
      List.flatten_append]
    congr 1
    · exact xframes_obs hX
    · exact yframes_obs hY
  · rw [← xframes_obs hX]
    unfold xWidth
    exact obs_flatten_length hX
  · rw [← yframes_obs hY, obs_flatten_length hY]
    unfold yFrames
    rw [List.map_map]
    have : (Frame.w ∘ fun s : ℕ => ep.target.shift (-(s : ℤ))) =
        fun _ : ℕ => ep.target.w := rfl
    rw [this, List.map_const', List.sum_replicate, List.length_range,
      smul_eq_mul]

theorem xWidth_eq_xColumns {ep : Episode} {lags : Lags} {wt wp wf : ℕ}
    (ht : ep.target.w = wt)
    (hp : ∀ f, ep.past = some f → f.w = wp)
    (hf : ∀ f, ep.future = some f → f.w = wf)
    (hpp : ep.past.isSome = lags.past.isSome)
    (hfp : ep.future.isSome = lags.future.isSome) :
    xWidth ep lags = xColumns lags wt wp wf := by
  unfold xWidth xFrames xColumns
  rw [List.map_append, List.map_append, List.sum_append, List.sum_append]
  congr 1
  · congr 1
    · cases lags.target with
      | none => simp
      | some ls =>
        dsimp only
        rw [List.map_map]
        have hc : (Frame.w ∘ fun lag : ℤ => ep.target.shift (-lag)) =
            fun _ : ℤ => ep.target.w := rfl
        rw [hc, List.map_const', List.sum_replicate, smul_eq_mul, ht]
        simp
    · cases hpast : ep.past with
      | none =>
        have : lags.past = none := by
          cases hl : lags.past with
          | none => rfl
          | some ls => rw [hpast, hl] at hpp; simp at hpp
        rw [this]
        simp
      | some f =>
        cases hl : lags.past with
        | none => rw [hpast, hl] at hpp; simp at hpp
        | some ls =>
          dsimp only
          rw [List.map_map]
          have hc : (Frame.w ∘ fun lag : ℤ => f.shift (-lag)) =
              fun _ : ℤ => f.w := rfl
          rw [hc, List.map_const', List.sum_replicate, smul_eq_mul, hp f hpast]
          simp
  · cases hfut : ep.future with
    | none =>
      have : lags.future = none := by
        cases hl : lags.future with
        | none => rfl
        | some ls => rw [hfut, hl] at hfp; simp at hfp
      rw [this]
      simp
    | some f =>
      cases hl : lags.future with
      | none => rw [hfut, hl] at hfp; simp at hfp
      | some ls =>
        dsimp only
        rw [List.map_map]
        have hc : (Frame.w ∘ fun lag : ℤ => f.shift (-lag)) =
            fun _ : ℤ => f.w := rfl
        rw [hc, List.map_const', List.sum_replicate, smul_eq_mul, hf f hfut]
        simp

theorem create_lagged_data_go_ok_mem (lags : Lags) (ocl : ℕ) (cap : Option ℕ)
    (total : ℕ) :
    ∀ (eps : List Episode) (idx : ℕ) (X Y : List (List ℚ)),
      create_lagged_data_go lags ocl cap total idx eps = Except.ok (X, Y) →
      (∀ rx ∈ X, ∃ ep ∈ eps, ∃ r ∈ episodeRows ep lags ocl cap,
          rx = r.take (xWidth ep lags)) ∧
      (∀ ry ∈ Y, ∃ ep ∈ eps, ∃ r ∈ episodeRows ep lags ocl cap,
          ry = r.drop (xWidth ep lags)) := by
  intro eps
  induction eps with
  | nil =>
    intro idx X Y h
    simp only [create_lagged_data_go, Except.ok.injEq, Prod.mk.injEq] at h
    obtain ⟨hX, hY⟩ := h
    subst hX
    subst hY
    simp
  | cons ep rest ih =>
    intro idx X Y h
    simp only [create_lagged_data_go] at h
    by_cases hz : (episodeRows ep lags ocl cap).length = 0
    · rw [if_pos hz] at h
      simp at h
    · rw [if_neg hz] at h
      cases hrec : create_lagged_data_go lags ocl cap total (idx + 1) rest with
      | error e =>
        rw [hrec] at h
        simp [Bind.bind, Except.bind] at h
      | ok p =>
        obtain ⟨xs, ys⟩ := p
        rw [hrec] at h
        simp only [Bind.bind, Except.bind, Except.ok.injEq, Prod.mk.injEq] at h
        obtain ⟨hX, hY⟩ := h
        subst hX
        subst hY
        have ihr := ih (idx + 1) xs ys hrec
        constructor
        · intro rx hrx
          rcases List.mem_append.mp hrx with h1 | h2
          · rcases List.mem_map.mp h1 with ⟨r, hr, rfl⟩
            exact ⟨ep, List.mem_cons_self _ _, r, hr, rfl⟩
          · rcases ihr.1 rx h2 with ⟨ep2, hep2, r, hr, hrx2⟩
            exact ⟨ep2, List.mem_cons_of_mem _ hep2, r, hr, hrx2⟩
        · intro ry hry
          rcases List.mem_append.mp hry with h1 | h2
          · rcases List.mem_map.mp h1 with ⟨r, hr, rfl⟩
            exact ⟨ep, List.mem_cons_self _ _, r, hr, rfl⟩
          · rcases ihr.2 ry h2 with ⟨ep2, hep2, r, hr, hry2⟩
            exact ⟨ep2, List.mem_cons_of_mem _ hep2, r, hr, hry2⟩

/-- C4.  Whenever the lagged-data build succeeds, every feature row has
exactly `sum over present groups of |lag group| x series width` columns and
equals, for some episode of the collection and some time `t`, the
concatenation target-lag cells, then past-covariate cells, then
future-covariate cells — within a group one block per lag in lag-list
order (ascending, as the constructor stores lag groups sorted), components
adjacent; every label row has `output_chunk_length x target width` columns
laid out step-block by step-block.  The width hypotheses say every episode
shares the component widths `wt`/`wp`/`wf` and carries a covariate series
exactly when the corresponding lag group exists (which `fit` enforces). -/
theorem c4_matrix_layout (eps : List Episode) (lags : Lags) (ocl : ℕ)
    (cap : Option ℕ) (X Y : List (List ℚ)) (wt wp wf : ℕ)
    (h : create_lagged_data eps lags ocl cap = Except.ok (X, Y))
    (ht : ∀ ep ∈ eps, ep.target.w = wt)
    (hpw : ∀ ep ∈ eps, ∀ f, ep.past = some f → f.w = wp)
    (hfw : ∀ ep ∈ eps, ∀ f, ep.future = some f → f.w = wf)
    (hpp : ∀ ep ∈ eps, ep.past.isSome = lags.past.isSome)
    (hfp : ∀ ep ∈ eps, ep.future.isSome = lags.future.isSome) :
    (∀ rx ∈ X, rx.length = xColumns lags wt wp wf ∧
      ∃ ep ∈ eps, ∃ t : ℤ, rx = specXRow ep lags t) ∧
    (∀ ry ∈ Y, ry.length = ocl * wt ∧
      ∃ ep ∈ eps, ∃ t : ℤ, ry = specYRow ep.target ocl t) := by
  obtain ⟨hXm, hYm⟩ :=
    create_lagged_data_go_ok_mem lags ocl cap eps.length eps 0 X Y h
  constructor
  · intro rx hrx
    obtain ⟨ep, hep, r, hr, hrx2⟩ := hXm rx hrx
    obtain ⟨t, hdec, hlenX, hlenY⟩ := episodeRows_spec hr
    have hxc := xWidth_eq_xColumns (ht ep hep) (hpw ep hep) (hfw ep hep)
      (hpp ep hep) (hfp ep hep)
    subst hrx2
    rw [hdec, ← hlenX, List.take_left]
    exact ⟨by rw [hlenX, hxc], ep, hep, t, rfl⟩
  · intro ry hry
    obtain ⟨ep, hep, r, hr, hry2⟩ := hYm ry hry
    obtain ⟨t, hdec, hlenX, hlenY⟩ := episodeRows_spec hr
    subst hry2
    rw [hdec, ← hlenX, List.drop_left]
    exact ⟨by rw [hlenY, ht ep hep], ep, hep, t, rfl⟩

/-- C4 witness: the concrete scenario-1 build — every feature row has
`2 = 2 x 1` columns and matches the spec layout at some time `t`; every
label row has `1 x 1` column. -/
theorem c4_matrix_layout_witness :
    (∀ rx ∈ ([[0, 1], [1, 2], [2, 3], [3, 4], [4, 5], [5, 6], [6, 7], [7, 8]] :
        List (List ℚ)),
      rx.length = xColumns scenario1Lags 1 0 0 ∧
      ∃ ep ∈ [scenario1Episode], ∃ t : ℤ, rx = specXRow ep scenario1Lags t) ∧
    (∀ ry ∈ ([[2], [3], [4], [5], [6], [7], [8], [9]] : List (List ℚ)),
      ry.length = 1 * 1 ∧
      ∃ ep ∈ [scenario1Episode], ∃ t : ℤ, ry = specYRow ep.target 1 t) :=
  c4_matrix_layout [scenario1Episode] scenario1Lags 1 none
    [[0, 1], [1, 2], [2, 3], [3, 4], [4, 5], [5, 6], [6, 7], [7, 8]]
    [[2], [3], [4], [5], [6], [7], [8], [9]] 1 0 0 rfl
    (fun ep hep => by rw [List.mem_singleton.mp hep]; rfl)
    (fun ep hep f hf => by
      rw [List.mem_singleton.mp hep] at hf
      simp [scenario1Episode] at hf)
    (fun ep hep f hf => by
      rw [List.mem_singleton.mp hep] at hf
      simp [scenario1Episode] at hf)
    (fun ep hep => by rw [List.mem_singleton.mp hep]; rfl)
    (fun ep hep => by rw [List.mem_singleton.mp hep]; rfl)

/-! ## Claim C8: quantile interpolation never extrapolates -/

theorem count_lt_spec (p : ℚ) (qs : List ℚ) (hsort : qs.Sorted (· < ·)) :
    (∀ i, i < (qs.filter (fun q => decide (q < p))).length →
      ∀ q, qs.get? i = some q → q < p) ∧
    (∀ i, (qs.filter (fun q => decide (q < p))).length ≤ i →
      ∀ q, qs.get? i = some q → p ≤ q) := by
  induction qs with
  | nil => exact ⟨fun i hi q hq => by simp at hq, fun i hi q hq => by simp at hq⟩
  | cons q0 rest ih =>
    have hsort' : rest.Sorted (· < ·) := hsort.of_cons
    have hhead : ∀ q ∈ rest, q0 < q := fun q hq => (List.sorted_cons.mp hsort).1 q hq
    obtain ⟨ih1, ih2⟩ := ih hsort'
    by_cases h0 : q0 < p
    · rw [List.filter_cons_of_pos (by simpa using h0)]
      refine ⟨fun i hi q hq => ?_, fun i hi q hq => ?_⟩
      · cases i with
        | zero =>
          simp only [List.get?_cons_zero, Option.some.injEq] at hq
          exact hq ▸ h0
        | succ j =>
          simp only [List.get?_cons_succ] at hq
          exact ih1 j (by simpa using hi) q hq
      · cases i with
        | zero => simp at hi
        | succ j =>
          simp only [List.get?_cons_succ] at hq
          exact ih2 j (by simpa using hi) q hq
    · have hrest : rest.filter (fun q => decide (q < p)) = [] := by
        refine List.filter_eq_nil_iff.mpr (fun q hq => ?_)
        simp only [decide_eq_true_eq]
        intro hlt
        exact h0 (lt_trans (hhead q hq) hlt)
      rw [List.filter_cons_of_neg (by simpa using h0), hrest]
      refine ⟨fun i hi q hq => by simp at hi, fun i hi q hq => ?_⟩
      cases i with
      | zero =>
        simp only [List.get?_cons_zero, Option.some.injEq] at hq
        subst hq
        exact le_of_not_lt h0
      | succ j =>
        simp only [List.get?_cons_succ] at hq
        exact le_of_lt (lt_of_le_of_lt (le_of_not_lt h0)
          (hhead q (List.get?_mem hq)))

theorem extQ_left {p lq : ℚ} {qs : List ℚ} (hp0 : 0 ≤ p)
    (hsort : qs.Sorted (· < ·))
    (h : (0 :: (qs ++ [1])).get?
      ((qs.filter (fun q => decide (q < p))).length) = some lq) :
    lq ≤ p := by
  cases hk : (qs.filter (fun q => decide (q < p))).length with
  | zero =>
    rw [hk] at h
    simp only [List.get?_cons_zero, Option.some.injEq] at h
    exact h ▸ hp0
  | succ j =>
    rw [hk] at h
    simp only [List.get?_cons_succ] at h
    have hkle : (qs.filter (fun q => decide (q < p))).length ≤ qs.length :=
      List.length_filter_le _ _
    have hj : j < qs.length := by omega
    rw [List.get?_append hj] at h
    exact le_of_lt ((count_lt_spec p qs hsort).1 j (by omega) lq h)

theorem extQ_right {p rq : ℚ} {qs : List ℚ} (hp1 : p ≤ 1)
    (hsort : qs.Sorted (· < ·))
    (h : (0 :: (qs ++ [1])).get?
      ((qs.filter (fun q => decide (q < p))).length + 1) = some rq) :
    p ≤ rq := by
  simp only [List.get?_cons_succ] at h
  have hkle : (qs.filter (fun q => decide (q < p))).length ≤ qs.length :=
    List.length_filter_le _ _
  by_cases hk : (qs.filter (fun q => decide (q < p))).length < qs.length
  · rw [List.get?_append hk] at h
    exact (count_lt_spec p qs hsort).2 _ le_rfl rq h
  · have he : (qs.filter (fun q => decide (q < p))).length = qs.length := by omega
    rw [he, List.get?_append_right le_rfl] at h
    simp only [Nat.sub_self, List.get?_cons_zero, Option.some.injEq] at h
    exact h ▸ hp1

theorem extQ_lt {p lq rq : ℚ} {qs : List ℚ}
    (hsort : qs.Sorted (· < ·)) (hq01 : ∀ q ∈ qs, 0 < q ∧ q < 1)
    (hl : (0 :: (qs ++ [1])).get?
      ((qs.filter (fun q => decide (q < p))).length) = some lq)
    (hr : (0 :: (qs ++ [1])).get?
      ((qs.filter (fun q => decide (q < p))).length + 1) = some rq) :
    lq < rq := by
  have hkle : (qs.filter (fun q => decide (q < p))).length ≤ qs.length :=
    List.length_filter_le _ _
  simp only [List.get?_cons_succ] at hr
  cases hk : (qs.filter (fun q => decide (q < p))).length with
  | zero =>
    rw [hk] at hl hr
    simp only [List.get?_cons_zero, Option.some.injEq] at hl
    subst hl
    cases qs with
    | nil =>
      simp only [List.nil_append, List.get?_cons_zero, Option.some.injEq] at hr
      exact hr ▸ one_pos
    | cons q0 rest =>
      simp only [List.cons_append, List.get?_cons_zero, Option.some.injEq] at hr
      exact hr ▸ (hq01 q0 (List.mem_cons_self _ _)).1
  | succ j =>
    rw [hk] at hl hr
    simp only [List.get?_cons_succ] at hl
    have hj : j < qs.length := by omega
    rw [List.get?_append hj] at hl
    by_cases hk2 : j + 1 < qs.length
    · rw [List.get?_append hk2] at hr
      rw [List.get?_eq_get hj] at hl
      rw [List.get?_eq_get hk2] at hr
      simp only [Option.some.injEq] at hl hr
      subst hl
      subst hr
      exact hsort.rel_get_of_lt (by simp)
    · have he : j + 1 = qs.length := by omega
      rw [List.get?_append_right (by omega)] at hr
      rw [he] at hr
      simp only [Nat.sub_self, List.get?_cons_zero, Option.some.injEq] at hr
      subst hr
      exact (hq01 lq (List.get?_mem hl)).2

theorem repeatLastEntry_mem {x : ℚ} : ∀ {vs : List ℚ},
    x ∈ repeatLastEntry vs → x ∈ vs
  | [], h => by simpa [repeatLastEntry] using h
  | [v], h => by simpa [repeatLastEntry] using h
  | v :: w :: rest, h => by
    rw [show repeatLastEntry (v :: w :: rest) = v :: repeatLastEntry (w :: rest)
      from rfl] at h
    rcases List.mem_cons.mp h with h1 | h2
    · exact h1 ▸ List.mem_cons_self _ _
    · exact List.mem_cons_of_mem _ (repeatLastEntry_mem h2)

theorem repeatEdges_mem {x : ℚ} {vs : List ℚ} (h : x ∈ repeatEdges vs) :
    x ∈ vs := by
  match vs, h with
  | [], h => simpa [repeatEdges] using h
  | [v], h => simpa [repeatEdges] using h
  | v :: w :: rest, h =>
    rw [show repeatEdges (v :: w :: rest) = v :: v :: repeatLastEntry (w :: rest)
      from rfl] at h
    rcases List.mem_cons.mp h with h1 | h2
    · exact h1 ▸ List.mem_cons_self _ _
    · rcases List.mem_cons.mp h2 with h3 | h4
      · exact h3 ▸ List.mem_cons_self _ _
      · exact List.mem_cons_of_mem _ (repeatLastEntry_mem h4)

theorem quantileCell_bounds {qs vs : List ℚ} {p v : ℚ}
    (hsort : qs.Sorted (· < ·))
    (hq01 : ∀ q ∈ qs, 0 < q ∧ q < 1)
    (hp0 : 0 ≤ p) (hp1 : p ≤ 1)
    (hcell : quantileCell qs vs p = some v) :
    (∃ a ∈ vs, a ≤ v) ∧ (∃ b ∈ vs, v ≤ b) := by
  simp only [quantileCell] at hcell
  cases h1 : (repeatEdges vs).get? ((qs.filter (fun q => decide (q < p))).length) with
  | none => rw [h1] at hcell; simp at hcell
  | some lv =>
    rw [h1] at hcell
    cases h2 : (repeatEdges vs).get?
        ((qs.filter (fun q => decide (q < p))).length + 1) with
    | none => rw [h2] at hcell; simp at hcell
    | some rv =>
      rw [h2] at hcell
      cases h3 : (0 :: (qs ++ [1])).get?
          ((qs.filter (fun q => decide (q < p))).length) with
      | none => rw [h3] at hcell; simp at hcell
      | some lq =>
        rw [h3] at hcell
        cases h4 : (0 :: (qs ++ [1])).get?
            ((qs.filter (fun q => decide (q < p))).length + 1) with
        | none => rw [h4] at hcell; simp at hcell
        | some rq =>
          rw [h4] at hcell
          simp only [Option.some.injEq] at hcell
          have hlv : lv ∈ vs := repeatEdges_mem (List.get?_mem h1)
          have hrv : rv ∈ vs := repeatEdges_mem (List.get?_mem h2)
          have hlq : lq ≤ p := extQ_left hp0 hsort h3
          have hrq : p ≤ rq := extQ_right hp1 hsort h4
          have hlt : lq < rq := extQ_lt hsort hq01 h3 h4
          have hw0 : 0 ≤ (p - lq) / (rq - lq) :=
            div_nonneg (by linarith) (by linarith)
          have hw1 : (p - lq) / (rq - lq) ≤ 1 := by
            rw [div_le_one (by linarith)]
            linarith
          subst hcell
          by_cases hc : lv ≤ rv
          · refine ⟨⟨lv, hlv, ?_⟩, ⟨rv, hrv, ?_⟩⟩
            · nlinarith
            · nlinarith
          · refine ⟨⟨rv, hrv, ?_⟩, ⟨lv, hlv, ?_⟩⟩
            · nlinarith
            · nlinarith

theorem sampleComps_get {qs : List ℚ} {probs : ℕ → ℚ} :
    ∀ (cs : List (List ℚ)) (k : ℕ) (out : List ℚ),
      sampleComps qs probs k cs = some out →
      ∀ m v, out.get? m = some v → ∃ vs, cs.get? m = some vs ∧
        quantileCell qs vs (probs (k + m)) = some v := by
  intro cs
  induction cs with
  | nil =>
    intro k out h m v hm
    simp only [sampleComps, Option.some.injEq] at h
    subst h
    simp at hm
  | cons c cs ih =>
    intro k out h m v hm
    simp only [sampleComps] at h
    cases hv : quantileCell qs c (probs k) with
    | none => rw [hv] at h; simp at h
    | some v0 =>
      rw [hv] at h
      cases htail : sampleComps qs probs (k + 1) cs with
      | none => rw [htail] at h; simp [Option.bind] at h
      | some tl =>
        rw [htail] at h
        simp only [Option.bind_eq_bind, Option.some_bind, Option.some.injEq] at h
        subst h
        cases m with
        | zero =>
          simp only [List.get?_cons_zero, Option.some.injEq] at hm
          subst hm
          exact ⟨c, rfl, by simpa using hv⟩
        | succ m2 =>
          simp only [List.get?_cons_succ] at hm
          obtain ⟨vs, hcs, hcell⟩ := ih (k + 1) tl htail m2 v hm
          refine ⟨vs, hcs, ?_⟩
          have : k + 1 + m2 = k + (m2 + 1) := by omega
          rw [this] at hcell
          exact hcell

theorem sampleSteps_get {qs : List ℚ} {probs : ℕ → ℕ → ℚ} :
    ∀ (steps : List (List (List ℚ))) (j : ℕ) (out : List (List ℚ)),
      sampleSteps qs probs j steps = some out →
      ∀ m r, out.get? m = some r → ∃ comps, steps.get? m = some comps ∧
        sampleComps qs (probs (j + m)) 0 comps = some r := by
  intro steps
  induction steps with
  | nil =>
    intro j out h m r hm
    simp only [sampleSteps, Option.some.injEq] at h
    subst h
    simp at hm
  | cons c cs ih =>
    intro j out h m r hm
    simp only [sampleSteps] at h
    cases hv : sampleComps qs (probs j) 0 c with
    | none => rw [hv] at h; simp at h
    | some r0 =>
      rw [hv] at h
      cases htail : sampleSteps qs probs (j + 1) cs with
      | none => rw [htail] at h; simp [Option.bind] at h
      | some tl =>
        rw [htail] at h
        simp only [Option.bind_eq_bind, Option.some_bind, Option.some.injEq] at h
        subst h
        cases m with
        | zero =>
          simp only [List.get?_cons_zero, Option.some.injEq] at hm
          subst hm
          exact ⟨c, rfl, by simpa using hv⟩
        | succ m2 =>
          simp only [List.get?_cons_succ] at hm
          obtain ⟨comps, hcs, hcell⟩ := ih (j + 1) tl htail m2 r hm
          refine ⟨comps, hcs, ?_⟩
          have : j + 1 + m2 = j + (m2 + 1) := by omega
          rw [this] at hcell
          exact hcell

theorem quantile_sampling_get {qs : List ℚ} {probs : ℕ → ℕ → ℕ → ℚ} :
    ∀ (t : List (List (List (List ℚ)))) (i : ℕ) (out : List (List (List ℚ))),
      quantile_sampling qs probs i t = some out →
      ∀ m r, out.get? m = some r → ∃ steps, t.get? m = some steps ∧
        sampleSteps qs (probs (i + m)) 0 steps = some r := by
  intro t
  induction t with
  | nil =>
    intro i out h m r hm
    simp only [quantile_sampling, Option.some.injEq] at h
    subst h
    simp at hm
  | cons c cs ih =>
    intro i out h m r hm
    simp only [quantile_sampling] at h
    cases hv : sampleSteps qs (probs i) 0 c with
    | none => rw [hv] at h; simp at h
    | some r0 =>
      rw [hv] at h
      cases htail : quantile_sampling qs probs (i + 1) cs with
      | none => rw [htail] at h; simp [Option.bind] at h
      | some tl =>
        rw [htail] at h
        simp only [Option.bind_eq_bind, Option.some_bind, Option.some.injEq] at h
        subst h
        cases m with
        | zero =>
          simp only [List.get?_cons_zero, Option.some.injEq] at hm
          subst hm
          exact ⟨c, rfl, by simpa using hv⟩
        | succ m2 =>
          simp only [List.get?_cons_succ] at hm
          obtain ⟨steps, hcs, hcell⟩ := ih (i + 1) tl htail m2 r hm
          refine ⟨steps, hcs, ?_⟩
          have : i + 1 + m2 = i + (m2 + 1) := by omega
          rw [this] at hcell
          exact hcell

/-- C8.  For every quantile-model output tensor and every family of
uniform draws in `[0, 1]` (with the fitted quantile levels strictly
ascending in `(0, 1)`), every sample cell produced by `_quantile_sampling`
is bounded below by some fitted-quantile output value of its
(row, step, component) cell and above by another — hence it lies between
the smallest and the largest fitted-quantile output value for that cell:
the virtual endpoint levels 0.0 and 1.0 reuse the edge output values, so
no sample extrapolates beyond the trained quantile range. -/
theorem c8_quantile_sampling_in_range (qs : List ℚ) (probs : ℕ → ℕ → ℕ → ℚ)
    (out : List (List (List (List ℚ)))) (res : List (List (List ℚ)))
    (hsort : qs.Sorted (· < ·)) (hq01 : ∀ q ∈ qs, 0 < q ∧ q < 1)
    (hprobs : ∀ i j k, 0 ≤ probs i j k ∧ probs i j k ≤ 1)
    (hsamp : quantile_sampling qs probs 0 out = some res) :
    ∀ i j k v,
      ((res.get? i).bind (fun a => a.get? j)).bind (fun b => b.get? k) = some v →
      ∃ vs, ((out.get? i).bind (fun a => a.get? j)).bind (fun b => b.get? k)
          = some vs ∧
        (∃ a ∈ vs, a ≤ v) ∧ (∃ b ∈ vs, v ≤ b) := by
  intro i j k v hv
  cases hres1 : res.get? i with
  | none => rw [hres1] at hv; simp at hv
  | some a =>
    rw [hres1, Option.some_bind] at hv
    cases hres2 : a.get? j with
    | none => rw [hres2] at hv; simp at hv
    | some b =>
      rw [hres2, Option.some_bind] at hv
      obtain ⟨steps, hout1, hsteps⟩ := quantile_sampling_get out 0 res hsamp i a hres1
      rw [Nat.zero_add] at hsteps
      obtain ⟨comps, hout2, hcomps⟩ := sampleSteps_get steps 0 a hsteps j b hres2
      rw [Nat.zero_add] at hcomps
      obtain ⟨vs, hout3, hcell⟩ := sampleComps_get comps 0 b hcomps k v hv
      rw [Nat.zero_add] at hcell
      refine ⟨vs, ?_, ?_⟩
      · rw [hout1, Option.some_bind, hout2, Option.some_bind, hout3]
      · exact quantileCell_bounds hsort hq01 (hprobs i j k).1 (hprobs i j k).2 hcell

/-- C8 witness: quantile levels `1/4, 1/2, 3/4` with outputs `1, 2, 3`
and the uniform draw `1/2` everywhere — the produced sample `2` is bounded
by members of the output cell `[1, 2, 3]`. -/
theorem c8_quantile_sampling_in_range_witness :
    ∃ vs, ((([[[[(1 : ℚ), 2, 3]]]] : List (List (List (List ℚ)))).get? 0).bind
        (fun a => a.get? 0)).bind (fun b => b.get? 0) = some vs ∧
      (∃ a ∈ vs, a ≤ 2) ∧ (∃ b ∈ vs, (2 : ℚ) ≤ b) :=
  c8_quantile_sampling_in_range [1 / 4, 1 / 2, 3 / 4] (fun _ _ _ => 1 / 2)
    [[[[1, 2, 3]]]] [[[2]]] (by norm_num [List.sorted_cons])
    (by norm_num [List.forall_mem_cons])
    (fun _ _ _ => ⟨by norm_num, by norm_num⟩)
    (by norm_num [quantile_sampling, sampleSteps, sampleComps, quantileCell,
      repeatEdges, repeatLastEntry])
    0 0 0 2 rfl

end Darts
